import Mathlib

/-
  Verification development for the Lyft motion-prediction script
  `Model4AutonomousVehicles.py`.

  The two components with algorithmic content are embedded here:
  - the multi-modal negative log-likelihood loss
    (`pytorch_neg_multi_log_likelihood_batch`, lines 226-258, and its
    single-mode wrapper `pytorch_neg_multi_log_likelihood_single`,
    lines 262-278), and
  - the trajectory-decoder tail of `LyftMultiModel.forward`
    (split / view / softmax, lines 217-222) together with the
    `backbone_out_features` configuration logic of `LyftMultiModel.__init__`
    (lines 178-181).

  Tensors are modelled as a flat row-major list of scalar values plus a
  shape.  Scalars held in input tensors are modelled by `FVal`: a finite
  rational value or one of the IEEE-754 non-finite values (+inf, -inf,
  NaN); float arithmetic is idealised as exact arithmetic.  The loss value
  itself is a real number; the IEEE convention log(0) = -inf that the code
  relies on (its `np.errstate(divide="ignore")` block) is modelled by
  computing the per-mode log-score in the extended reals `EReal`, where a
  zero confidence scores `⊥`.
-/

namespace Lyft

/-- Scalar value stored in an input float tensor: a finite value (modelled
exactly as a rational) or one of the IEEE-754 non-finite values. -/
inductive FVal where
  | fin (x : ℚ)
  | pinf
  | ninf
  | nan
deriving DecidableEq

/-- `torch.isfinite` on one scalar. -/
def FVal.isFinite : FVal → Bool
  | FVal.fin _ => true
  | _ => false

/-- IEEE-754 addition on the scalar model (finite arithmetic idealised as
exact rational arithmetic; NaN propagates; inf + (-inf) = NaN). -/
def FVal.add : FVal → FVal → FVal
  | FVal.nan, _ => FVal.nan
  | _, FVal.nan => FVal.nan
  | FVal.pinf, FVal.ninf => FVal.nan
  | FVal.ninf, FVal.pinf => FVal.nan
  | FVal.pinf, _ => FVal.pinf
  | _, FVal.pinf => FVal.pinf
  | FVal.ninf, _ => FVal.ninf
  | _, FVal.ninf => FVal.ninf
  | FVal.fin a, FVal.fin b => FVal.fin (a + b)

/-- The finite value carried by a scalar (0 for non-finite values; only
used after the finiteness assertions have passed). -/
def FVal.toQ : FVal → ℚ
  | FVal.fin x => x
  | _ => 0

/-- `torch.sum` over a list of scalars. -/
def sumFV (l : List FVal) : FVal := l.foldl FVal.add (FVal.fin 0)

/-- `torch.allclose` default absolute tolerance. -/
def atol : ℚ := 1e-8

/-- `torch.allclose` default relative tolerance. -/
def rtol : ℚ := 1e-5

/-- `torch.allclose(x, 1)` on one scalar: false for non-finite values,
otherwise `|x - 1| <= atol + rtol * |1|`. -/
def closeOne : FVal → Bool
  | FVal.fin x => decide (|x - 1| ≤ atol + rtol * 1)
  | _ => false

/-- A tensor: a shape plus its elements, flattened row-major. -/
structure Tens where
  shape : List ℕ
  data : List FVal
deriving DecidableEq

/-- Element of a tensor at a flat (row-major) index, as a real number
(non-finite scalars are read as 0; the loss only reads data after its
finiteness assertions have passed). -/
noncomputable def Tens.val (t : Tens) (i : ℕ) : ℝ :=
  ((t.data.getD i (FVal.fin 0)).toQ : ℝ)

/-- `t.unsqueeze(1)`: insert a dimension of size 1 at position 1.  The
flat row-major data is unchanged. -/
def Tens.unsqueeze1 (t : Tens) : Tens :=
  { shape := match t.shape with
             | a :: r => a :: 1 :: r
             | [] => [1]
    data := t.data }

/-- `Tensor.new_ones(shape)`: a tensor of the given shape filled with 1. -/
def new_ones (shape : List ℕ) : Tens :=
  { shape := shape, data := List.replicate shape.prod (FVal.fin 1) }

/-! ## The loss computation (source lines 243-258), on shape-indexed data

`rawError` is line 247 combined with the time reduction of line 251:
the squared difference is taken AFTER multiplying by the availability,
`((gt - pred) * avails) ** 2`, then summed over the coordinate and time
axes. -/

/-- Per-sample, per-mode raw error of lines 247/251:
`sum_t sum_c ((gt - pred) * avails)^2`. -/
noncomputable def rawError {T C : ℕ} (gt pred : Fin T → Fin C → ℝ)
    (avails : Fin T → ℝ) : ℝ :=
  ∑ t, ∑ c, ((gt t c - pred t c) * avails t) ^ 2

/-- Per-mode log-score of line 251: `log(confidence) - 0.5 * rawError`,
in the extended reals so that a zero confidence scores `⊥`, the IEEE
`log(0) = -inf` that the code deliberately permits with
`np.errstate(divide="ignore")`. -/
noncomputable def logScore (c e : ℝ) : EReal :=
  if c = 0 then ⊥ else ((Real.log c - 0.5 * e : ℝ) : EReal)

/-- One exponential of line 256, `exp(score - max)`: zero when the score
is `-inf` (IEEE `exp(-inf) = 0`), otherwise the real exponential of the
difference. -/
noncomputable def expTerm (s mx : EReal) : ℝ :=
  if s = ⊥ then 0 else Real.exp (s.toReal - mx.toReal)

/-- Per-sample loss of lines 255-256: subtract the max log-score over the
modes, exponentiate, sum, take log, negate, and subtract the max back. -/
noncomputable def nllSample {M : ℕ} (score : Fin M → EReal) : ℝ :=
  -Real.log (∑ m, expTerm (score m) (Finset.univ.sup score))
    - (Finset.univ.sup score).toReal

/-- The value computed by `pytorch_neg_multi_log_likelihood_batch` once
its assertions have passed (lines 243-258): per sample, the negated
log-sum-exp over the modes of `log(conf) - 0.5 * rawError`, then the mean
over the batch (line 258). -/
noncomputable def pnmllValue (B M T C : ℕ)
    (gt : Fin B → Fin T → Fin C → ℝ)
    (pred : Fin B → Fin M → Fin T → Fin C → ℝ)
    (conf : Fin B → Fin M → ℝ)
    (avails : Fin B → Fin T → ℝ) : ℝ :=
  (∑ b, nllSample (fun m =>
      logScore (conf b m) (rawError (gt b) (pred b m) (avails b)))) / B

/-! ## The full loss functions, assertions included (lines 226-258, 262-278) -/

/-- `pytorch_neg_multi_log_likelihood_batch` (lines 226-258).  The
assertions of lines 229-240 are modelled as a guard: rank-4 `pred`, the
derived shapes for `gt`, `confidences` and `avails`, each confidence row
summing to 1 within `torch.allclose` tolerance, and all four tensors
finite.  A failed assertion aborts the computation (`none`); otherwise the
loss value on the tensor elements is returned. -/
noncomputable def pytorch_neg_multi_log_likelihood_batch
    (gt pred confidences avails : Tens) : Option ℝ :=
  match pred.shape with
  | [batch_size, num_modes, future_len, num_coords] =>
    if gt.shape = [batch_size, future_len, num_coords]
        ∧ confidences.shape = [batch_size, num_modes]
        ∧ (∀ b ∈ List.range batch_size,
            closeOne (sumFV ((confidences.data.drop (b * num_modes)).take num_modes)) = true)
        ∧ avails.shape = [batch_size, future_len]
        ∧ pred.data.all FVal.isFinite = true
        ∧ gt.data.all FVal.isFinite = true
        ∧ confidences.data.all FVal.isFinite = true
        ∧ avails.data.all FVal.isFinite = true
    then some (pnmllValue batch_size num_modes future_len num_coords
        (fun b t c => gt.val ((b * future_len + t) * num_coords + c))
        (fun b m t c => pred.val (((b * num_modes + m) * future_len + t) * num_coords + c))
        (fun b m => confidences.val (b * num_modes + m))
        (fun b t => avails.val (b * future_len + t)))
    else none
  | _ => none

/-- `pytorch_neg_multi_log_likelihood_single` (lines 262-278): destructure
`pred.shape` as `(batch_size, future_len, num_coords)` (a non-rank-3 `pred`
fails the destructuring), build an all-ones `(batch_size, 1)` confidence
tensor, insert a mode dimension into `pred`, and call the batch loss. -/
noncomputable def pytorch_neg_multi_log_likelihood_single
    (gt pred avails : Tens) : Option ℝ :=
  match pred.shape with
  | [batch_size, _, _] =>
      pytorch_neg_multi_log_likelihood_batch gt pred.unsqueeze1
        (new_ones [batch_size, 1]) avails
  | _ => none

/-! ## The trajectory decoder (`LyftMultiModel`, lines 154-222)

The configured sizes come from the `cfg` dictionary:
`future_num_frames = 50` and the constructor default `num_modes = 3`. -/

/-- `self.future_len = cfg["model_params"]["future_num_frames"]` (line 184). -/
def future_len : ℕ := 50

/-- Constructor default `num_modes=3` (line 156). -/
def num_modes : ℕ := 3

/-- `num_targets = 2 * self.future_len` (line 185). -/
def num_targets : ℕ := 2 * future_len

/-- `self.num_preds = num_targets * num_modes` (line 193). -/
def num_preds : ℕ := num_targets * num_modes

/-- `backbone_out_features` as the constructor computes it (lines 178-181):
2048 only for the literal architecture name `"resnet50"`, 512 otherwise. -/
def backbone_out_features (architecture : String) : ℕ :=
  if architecture = "resnet50" then 2048 else 512

/-- Modelled from the spec: the actual output feature width of each
torchvision resnet imported by the script (resnet18, resnet34, resnet50,
resnet101) — the width the embedding fed to the head really has.  The
spec ("512 or 2048 depending on backbone depth", deeper resnets such as
resnet101 being 2048) and the source's own comment (lines 175-176: "This
is 512 for resnet18 and resnet34; And it is 2048 for the other resnets")
agree on these values; the torchvision implementation itself is outside
the repository. -/
def resnetFeatureWidth (architecture : String) : ℕ :=
  if architecture = "resnet18" ∨ architecture = "resnet34" then 512 else 2048

/-- A real-valued tensor (shape plus flat row-major data), used for the
decoder head whose confidence outputs are softmax values. -/
structure RTens where
  shape : List ℕ
  data : List ℝ

/-- `torch.softmax` along a row of logits. -/
noncomputable def softmax (l : List ℝ) : List ℝ :=
  l.map (fun v => Real.exp v / (l.map Real.exp).sum)

/-- The decoding tail of `LyftMultiModel.forward` (lines 217-222), taking
the output `x` of the `self.logit` linear layer, a tensor of shape
`(bs, num_preds + num_modes)` (the preceding backbone / head / logit
layers are the external framework's linear maps and only fix this shape).
`torch.split(x, num_preds, dim=1)` keeps the first `num_preds` columns of
each row for `pred` and the remaining `num_modes` columns for the
confidence logits; `pred.view(bs, num_modes, future_len, 2)` reshapes
without touching the row-major data; `torch.softmax(confidences, dim=1)`
normalises each confidence row. -/
noncomputable def LyftMultiModel_forward (bs : ℕ) (x : RTens) : RTens × RTens :=
  ({ shape := [bs, num_modes, future_len, 2]
     data := (List.range bs).flatMap (fun b =>
       ((x.data.drop (b * (num_preds + num_modes))).take (num_preds + num_modes)).take num_preds) },
   { shape := [bs, num_modes]
     data := (List.range bs).flatMap (fun b =>
       softmax (((x.data.drop (b * (num_preds + num_modes))).take (num_preds + num_modes)).drop num_preds)) })

/-! ## Helper lemmas about the per-sample loss -/

/-- In exact arithmetic the max-subtraction log-sum-exp of lines 255-256
is an identity: whenever the confidences are non-negative and at least one
is positive, the per-sample loss is `-log (sum_m conf_m * exp(-0.5 * err_m))`.
Zero-confidence modes score `-inf` and contribute a zero exponential. -/
lemma nllSample_eq {M : ℕ} (conf err : Fin M → ℝ)
    (hnn : ∀ m, 0 ≤ conf m) (hpos : ∃ m, 0 < conf m) :
    nllSample (fun m => logScore (conf m) (err m))
      = -Real.log (∑ m, conf m * Real.exp (-(0.5 * err m))) := by
  obtain ⟨m₁, hm₁⟩ := hpos
  have hne : (Finset.univ : Finset (Fin M)).Nonempty := ⟨m₁, Finset.mem_univ m₁⟩
  obtain ⟨m₂, -, hsup⟩ :=
    Finset.exists_mem_eq_sup Finset.univ hne (fun m => logScore (conf m) (err m))
  have h1 : logScore (conf m₁) (err m₁)
      = ((Real.log (conf m₁) - 0.5 * err m₁ : ℝ) : EReal) := by
    simp [logScore, ne_of_gt hm₁]
  have hle : logScore (conf m₁) (err m₁)
      ≤ Finset.univ.sup (fun m => logScore (conf m) (err m)) :=
    Finset.le_sup (f := fun m => logScore (conf m) (err m)) (Finset.mem_univ m₁)
  have hc2 : conf m₂ ≠ 0 := by
    intro h0
    rw [hsup, h1] at hle
    simp only [logScore, if_pos h0] at hle
    rw [le_bot_iff] at hle
    exact EReal.coe_ne_bot _ hle
  have hc2pos : 0 < conf m₂ := lt_of_le_of_ne (hnn m₂) (Ne.symm hc2)
  have hsupr : Finset.univ.sup (fun m => logScore (conf m) (err m))
      = ((Real.log (conf m₂) - 0.5 * err m₂ : ℝ) : EReal) := by
    rw [hsup]; simp [logScore, hc2]
  have hterm : ∀ m, expTerm (logScore (conf m) (err m))
        ((Real.log (conf m₂) - 0.5 * err m₂ : ℝ) : EReal)
      = conf m * Real.exp (-(0.5 * err m))
          * Real.exp (-(Real.log (conf m₂) - 0.5 * err m₂)) := by
    intro m
    by_cases h0 : conf m = 0
    · simp [expTerm, logScore, h0]
    · have hcpos : 0 < conf m := lt_of_le_of_ne (hnn m) (Ne.symm h0)
      simp only [expTerm, logScore, if_neg h0]
      rw [if_neg (EReal.coe_ne_bot _), EReal.toReal_coe, EReal.toReal_coe]
      rw [show Real.log (conf m) - 0.5 * err m - (Real.log (conf m₂) - 0.5 * err m₂)
            = Real.log (conf m) + (-(0.5 * err m) + -(Real.log (conf m₂) - 0.5 * err m₂)) by ring]
      rw [Real.exp_add, Real.exp_add, Real.exp_log hcpos]
      ring
  have hS : 0 < ∑ m, conf m * Real.exp (-(0.5 * err m)) := by
    refine Finset.sum_pos' (fun m _ => mul_nonneg (hnn m) (Real.exp_nonneg _))
      ⟨m₁, Finset.mem_univ m₁, mul_pos hm₁ (Real.exp_pos _)⟩
  unfold nllSample
  rw [hsupr]
  rw [show (∑ m, expTerm (logScore (conf m) (err m))
          ((Real.log (conf m₂) - 0.5 * err m₂ : ℝ) : EReal))
        = ∑ m, conf m * Real.exp (-(0.5 * err m))
            * Real.exp (-(Real.log (conf m₂) - 0.5 * err m₂))
      from Finset.sum_congr rfl (fun m _ => hterm m)]
  rw [← Finset.sum_mul, EReal.toReal_coe]
  rw [Real.log_mul (ne_of_gt hS) (Real.exp_ne_zero _), Real.log_exp]
  ring

/-! ## Claims -/

/-- C1: for any two prediction tensors that differ only at timesteps
whose availability is 0, the loss is unchanged: a masked timestep
contributes exactly zero error regardless of the prediction there. -/
theorem C1_masked_timestep_no_contribution (B M T C : ℕ)
    (gt : Fin B → Fin T → Fin C → ℝ)
    (pred1 pred2 : Fin B → Fin M → Fin T → Fin C → ℝ)
    (conf : Fin B → Fin M → ℝ) (avails : Fin B → Fin T → ℝ)
    (h : ∀ b m t c, avails b t ≠ 0 → pred1 b m t c = pred2 b m t c) :
    pnmllValue B M T C gt pred1 conf avails
      = pnmllValue B M T C gt pred2 conf avails := by
  have hraw : ∀ b m, rawError (gt b) (pred1 b m) (avails b)
      = rawError (gt b) (pred2 b m) (avails b) := by
    intro b m
    unfold rawError
    refine Finset.sum_congr rfl (fun t _ => Finset.sum_congr rfl (fun c _ => ?_))
    by_cases hav : avails b t = 0
    · rw [hav]; ring
    · rw [h b m t c hav]
  unfold pnmllValue
  congr 1
  refine Finset.sum_congr rfl (fun b _ => ?_)
  congr 1
  funext m
  rw [hraw b m]

/-- Witness for C1 at a concrete input: with availability identically 0,
two predictions that disagree everywhere give the same loss. -/
theorem C1_masked_timestep_no_contribution_witness :
    pnmllValue 1 1 1 2 (fun _ _ _ => 0) (fun _ _ _ _ => 0) (fun _ _ => 1) (fun _ _ => 0)
      = pnmllValue 1 1 1 2 (fun _ _ _ => 0) (fun _ _ _ _ => 1) (fun _ _ => 1) (fun _ _ => 0) :=
  C1_masked_timestep_no_contribution 1 1 1 2 _ _ _ _ _
    (fun _ _ _ _ hav => absurd rfl hav)

/-- C2: with a single mode of confidence 1 and all timesteps available,
the batch loss is `0.5 * mean(sum of squared per-step errors)`. -/
theorem C2_single_mode_all_available (B T : ℕ)
    (gt : Fin B → Fin T → Fin 2 → ℝ)
    (pred : Fin B → Fin 1 → Fin T → Fin 2 → ℝ)
    (conf : Fin B → Fin 1 → ℝ) (avails : Fin B → Fin T → ℝ)
    (hconf : ∀ b m, conf b m = 1) (hav : ∀ b t, avails b t = 1) :
    pnmllValue B 1 T 2 gt pred conf avails
      = 0.5 * ((∑ b, ∑ t, ∑ c, (gt b t c - pred b 0 t c) ^ 2) / B) := by
  unfold pnmllValue
  have hsample : ∀ b : Fin B,
      nllSample (fun m => logScore (conf b m) (rawError (gt b) (pred b m) (avails b)))
        = 0.5 * ∑ t, ∑ c, (gt b t c - pred b 0 t c) ^ 2 := by
    intro b
    have hraw : rawError (gt b) (pred b 0) (avails b)
        = ∑ t, ∑ c, (gt b t c - pred b 0 t c) ^ 2 := by
      unfold rawError
      refine Finset.sum_congr rfl (fun t _ => Finset.sum_congr rfl (fun c _ => ?_))
      rw [hav, mul_one]
    rw [nllSample_eq (conf b) (fun m => rawError (gt b) (pred b m) (avails b))
        (fun m => by rw [hconf]; norm_num) ⟨0, by rw [hconf]; norm_num⟩]
    rw [Fin.sum_univ_one, hconf, one_mul, Real.log_exp, neg_neg, hraw]
  rw [show (∑ b, nllSample (fun m =>
        logScore (conf b m) (rawError (gt b) (pred b m) (avails b))))
      = ∑ b, 0.5 * ∑ t, ∑ c, (gt b t c - pred b 0 t c) ^ 2
    from Finset.sum_congr rfl (fun b _ => hsample b)]
  rw [← Finset.mul_sum, mul_div_assoc]

/-- Witness for C2 at a concrete input (B = T = 1, zero trajectories). -/
theorem C2_single_mode_all_available_witness :
    pnmllValue 1 1 1 2 (fun _ _ _ => 0) (fun _ _ _ _ => 0) (fun _ _ => 1) (fun _ _ => 1)
      = 0.5 * ((∑ _b : Fin 1, ∑ _t : Fin 1, ∑ _c : Fin 2, ((0 : ℝ) - 0) ^ 2) / ((1 : ℕ) : ℝ)) :=
  C2_single_mode_all_available 1 1 _ _ _ _ (fun _ _ => rfl) (fun _ _ => rfl)

/-- C6 counterexample: with availability weight 1/2 and a unit error at
the single timestep, the code's raw error (line 247: multiply by the
availability, THEN square) is 1/4, while the claim's formula — squared
L2 error masked (multiplied) by the availability weight — gives 1/2. -/
theorem C6_counterexample :
    rawError (T := 1) (C := 2) (fun _ c => if c = 0 then 1 else 0)
        (fun _ _ => 0) (fun _ => 1 / 2) = 1 / 4
      ∧ (∑ t : Fin 1, (fun _ : Fin 1 => (1 / 2 : ℝ)) t
          * ∑ c : Fin 2, ((fun _ c => if c = 0 then (1 : ℝ) else 0) t c
              - (fun (_ : Fin 1) (_ : Fin 2) => (0 : ℝ)) t c) ^ 2) = 1 / 2
      ∧ (1 / 4 : ℝ) ≠ 1 / 2 := by
  refine ⟨?_, ?_, by norm_num⟩
  · unfold rawError
    rw [Fin.sum_univ_one, Fin.sum_univ_two]
    norm_num
  · rw [Fin.sum_univ_one, Fin.sum_univ_two]
    norm_num

/-- C6 amended: for real-valued availability weights the raw per-mode
error equals the squared L2 error at each timestep masked by the SQUARE
of that timestep's availability weight (the difference is multiplied by
the availability before squaring), summed over time and coordinates; for
0/1 availabilities this coincides with masking by the weight itself. -/
theorem C6_amended_masked_by_squared_availability {T C : ℕ}
    (gt pred : Fin T → Fin C → ℝ) (avails : Fin T → ℝ) :
    rawError gt pred avails
      = ∑ t, (avails t) ^ 2 * ∑ c, (gt t c - pred t c) ^ 2 := by
  unfold rawError
  refine Finset.sum_congr rfl (fun t _ => ?_)
  rw [Finset.mul_sum]
  refine Finset.sum_congr rfl (fun c _ => ?_)
  ring

/-- A `Finset.sup` over all of `Fin M` is invariant under precomposition
with a permutation of `Fin M`. -/
lemma sup_comp_perm {M : ℕ} (σ : Equiv.Perm (Fin M)) (f : Fin M → EReal) :
    Finset.univ.sup (fun m => f (σ m)) = Finset.univ.sup f := by
  apply le_antisymm
  · exact Finset.sup_le (fun m _ => Finset.le_sup (f := f) (Finset.mem_univ (σ m)))
  · refine Finset.sup_le (fun m _ => ?_)
    have h := Finset.le_sup (f := fun m => f (σ m)) (Finset.mem_univ (σ.symm m))
    simpa using h

/-- The per-sample loss is invariant under permuting the mode scores. -/
lemma nllSample_comp_perm {M : ℕ} (σ : Equiv.Perm (Fin M)) (s : Fin M → EReal) :
    nllSample (fun m => s (σ m)) = nllSample s := by
  unfold nllSample
  rw [sup_comp_perm σ s]
  congr 3
  exact Equiv.sum_comp σ (fun m => expTerm (s m) (Finset.univ.sup s))

/-- C10: the batch loss is invariant under any joint permutation of the
mode dimension of the predictions and the confidences. -/
theorem C10_mode_permutation_invariance (B M T C : ℕ)
    (gt : Fin B → Fin T → Fin C → ℝ)
    (pred : Fin B → Fin M → Fin T → Fin C → ℝ)
    (conf : Fin B → Fin M → ℝ) (avails : Fin B → Fin T → ℝ)
    (σ : Equiv.Perm (Fin M)) :
    pnmllValue B M T C gt (fun b m => pred b (σ m)) (fun b m => conf b (σ m)) avails
      = pnmllValue B M T C gt pred conf avails := by
  unfold pnmllValue
  congr 1
  refine Finset.sum_congr rfl (fun b _ => ?_)
  exact nllSample_comp_perm σ
    (fun m => logScore (conf b m) (rawError (gt b) (pred b m) (avails b)))

/-- C7: a mode whose confidence is exactly 0 scores `log 0 = -inf` and is
effectively dropped: with every remaining mode of positive confidence, the
loss over all `M+1` modes equals the loss over the `M` remaining modes. -/
theorem C7_zero_confidence_mode_dropped (B M T C : ℕ)
    (gt : Fin B → Fin T → Fin C → ℝ)
    (pred : Fin B → Fin (M + 1) → Fin T → Fin C → ℝ)
    (conf : Fin B → Fin (M + 1) → ℝ) (avails : Fin B → Fin T → ℝ)
    (m0 : Fin (M + 1)) (hM : 0 < M)
    (h0 : ∀ b, conf b m0 = 0)
    (hpos : ∀ b m, m ≠ m0 → 0 < conf b m) :
    pnmllValue B (M + 1) T C gt pred conf avails
      = pnmllValue B M T C gt (fun b m => pred b (m0.succAbove m))
          (fun b m => conf b (m0.succAbove m)) avails := by
  unfold pnmllValue
  congr 1
  refine Finset.sum_congr rfl (fun b _ => ?_)
  rw [nllSample_eq (conf b) (fun m => rawError (gt b) (pred b m) (avails b))
      (fun m => by
        by_cases h : m = m0
        · rw [h, h0]
        · exact le_of_lt (hpos b m h))
      ⟨m0.succAbove ⟨0, hM⟩, hpos b _ (Fin.succAbove_ne m0 _)⟩]
  rw [nllSample_eq (fun m => conf b (m0.succAbove m))
      (fun m => rawError (gt b) (pred b (m0.succAbove m)) (avails b))
      (fun m => le_of_lt (hpos b _ (Fin.succAbove_ne m0 m)))
      ⟨⟨0, hM⟩, hpos b _ (Fin.succAbove_ne m0 _)⟩]
  rw [Fin.sum_univ_succAbove
      (fun m => conf b m * Real.exp (-(0.5 * rawError (gt b) (pred b m) (avails b)))) m0]
  rw [h0 b, zero_mul, zero_add]

/-- Witness for C7: two modes with confidences (0, 1); dropping the
zero-confidence mode leaves the loss unchanged. -/
theorem C7_zero_confidence_mode_dropped_witness :
    pnmllValue 1 2 1 2 (fun _ _ _ => 0) (fun _ _ _ _ => 0)
        (fun _ m => if m = (0 : Fin 2) then 0 else 1) (fun _ _ => 1)
      = pnmllValue 1 1 1 2 (fun _ _ _ => 0) (fun _ _ _ _ => 0)
          (fun _ m => if (0 : Fin 2).succAbove m = (0 : Fin 2) then 0 else 1)
          (fun _ _ => 1) :=
  C7_zero_confidence_mode_dropped 1 1 1 2 _ _ _ _ 0 (by decide)
    (fun _ => if_pos rfl)
    (fun _ m hm => by rw [if_neg hm]; exact zero_lt_one)

/-- C3 counterexample is given below at the tensor level; this is the
amended general fact: with identical predictions across all modes and
uniform confidences 1/M, the batch loss equals the single-mode loss
EXACTLY — the `log M` added by the log-sum-exp of M identical terms is
cancelled by the `log(1/M)` confidence term, so nothing is added. -/
theorem C3_amended_uniform_modes_equal_single (B M T C : ℕ)
    (gt : Fin B → Fin T → Fin C → ℝ)
    (q : Fin B → Fin T → Fin C → ℝ)
    (conf : Fin B → Fin M → ℝ) (avails : Fin B → Fin T → ℝ)
    (hM : 0 < M) (hconf : ∀ b m, conf b m = 1 / (M : ℝ)) :
    pnmllValue B M T C gt (fun b _ => q b) conf avails
      = pnmllValue B 1 T C gt (fun b _ => q b) (fun _ _ => 1) avails := by
  have hMR : (0 : ℝ) < M := by exact_mod_cast hM
  unfold pnmllValue
  congr 1
  refine Finset.sum_congr rfl (fun b _ => ?_)
  rw [nllSample_eq (conf b) (fun _ => rawError (gt b) (q b) (avails b))
      (fun m => by rw [hconf]; positivity)
      ⟨⟨0, hM⟩, by rw [hconf]; positivity⟩]
  rw [nllSample_eq (fun _ => (1 : ℝ)) (fun _ => rawError (gt b) (q b) (avails b))
      (fun _ => zero_le_one) ⟨0, zero_lt_one⟩]
  rw [Fin.sum_univ_one, one_mul]
  have hsum : (∑ m : Fin M, conf b m
        * Real.exp (-(0.5 * rawError (gt b) (q b) (avails b))))
      = Real.exp (-(0.5 * rawError (gt b) (q b) (avails b))) := by
    rw [Finset.sum_congr rfl (fun m _ => by rw [hconf b m])]
    rw [Finset.sum_const, Finset.card_univ, Fintype.card_fin, nsmul_eq_mul]
    rw [← mul_assoc, mul_one_div_cancel (ne_of_gt hMR), one_mul]
  rw [hsum]

/-- Witness for C3's amended theorem: two identical zero modes with
confidences (1/2, 1/2) give the same loss as a single mode of
confidence 1. -/
theorem C3_amended_uniform_modes_equal_single_witness :
    pnmllValue 1 2 1 2 (fun _ _ _ => 0) (fun _ _ _ _ => 0)
        (fun _ _ => 1 / ((2 : ℕ) : ℝ)) (fun _ _ => 1)
      = pnmllValue 1 1 1 2 (fun _ _ _ => 0) (fun _ _ _ _ => 0)
          (fun _ _ => 1) (fun _ _ => 1) :=
  C3_amended_uniform_modes_equal_single 1 2 1 2 _ _ _ _ (by decide)
    (fun _ _ => rfl)

/-- C8: for `"resnet101"` — one of the four torchvision resnets the
script imports — the constructor computes `backbone_out_features = 512`
(its `if` only special-cases `"resnet50"`), although that backbone's
actual feature width is 2048, as the source's own comment (lines 175-176)
states.  The constructor performs no check, so the mismatch is created at
construction time and surfaces only later. -/
theorem C8_resnet101_width_mismatch :
    backbone_out_features "resnet101" = 512
      ∧ resnetFeatureWidth "resnet101" = 2048
      ∧ (512 : ℕ) ≠ 2048 := by
  refine ⟨by decide, by decide, by decide⟩

/-- C9: the single-mode loss is literally the M = 1 specialization of the
batch loss: for a rank-3 `pred` of shape (B, T, 2), it equals the batch
loss on `pred` with a mode dimension of size 1 inserted and an all-ones
(B, 1) confidence tensor. -/
theorem C9_single_is_batch_specialization (B T : ℕ) (gt pred avails : Tens)
    (h : pred.shape = [B, T, 2]) :
    pytorch_neg_multi_log_likelihood_single gt pred avails
      = pytorch_neg_multi_log_likelihood_batch gt pred.unsqueeze1
          (new_ones [B, 1]) avails := by
  unfold pytorch_neg_multi_log_likelihood_single
  rw [h]

/-- Witness for C9 at a concrete rank-3 prediction tensor. -/
theorem C9_single_is_batch_specialization_witness :
    pytorch_neg_multi_log_likelihood_single
        (Tens.mk [1, 1, 2] [FVal.fin 0, FVal.fin 0])
        (Tens.mk [1, 1, 2] [FVal.fin 0, FVal.fin 0])
        (Tens.mk [1, 1] [FVal.fin 1])
      = pytorch_neg_multi_log_likelihood_batch
          (Tens.mk [1, 1, 2] [FVal.fin 0, FVal.fin 0])
          (Tens.mk [1, 1, 2] [FVal.fin 0, FVal.fin 0]).unsqueeze1
          (new_ones [1, 1]) (Tens.mk [1, 1] [FVal.fin 1]) :=
  C9_single_is_batch_specialization 1 1 _ _ _ rfl

/-- C4: every invalid input is rejected before a loss is produced: a
`pred` that is not rank 4, a shape mismatch in `gt`, `confidences` or
`avails` against the shape derived from `pred`, a confidence row not
summing to 1 within `torch.allclose` tolerance, or a non-finite value in
any of the four tensors, each make the batch loss abort with no value. -/
theorem C4_invalid_input_rejected (gt pred confidences avails : Tens)
    (h : pred.shape.length ≠ 4
      ∨ ∃ B M T C, pred.shape = [B, M, T, C]
          ∧ (gt.shape ≠ [B, T, C]
             ∨ confidences.shape ≠ [B, M]
             ∨ avails.shape ≠ [B, T]
             ∨ ¬ (∀ b ∈ List.range B,
                  closeOne (sumFV ((confidences.data.drop (b * M)).take M)) = true)
             ∨ pred.data.all FVal.isFinite ≠ true
             ∨ gt.data.all FVal.isFinite ≠ true
             ∨ confidences.data.all FVal.isFinite ≠ true
             ∨ avails.data.all FVal.isFinite ≠ true)) :
    pytorch_neg_multi_log_likelihood_batch gt pred confidences avails = none := by
  unfold pytorch_neg_multi_log_likelihood_batch
  split <;> try rfl
  rename_i batch_size num_modes future_len num_coords heq
  split
  · rename_i hcond
    obtain ⟨hc1, hc2, hc3, hc4, hc5, hc6, hc7, hc8⟩ := hcond
    rcases h with hlen | ⟨B, M, T, C, hps, hviol⟩
    · exact absurd (by rw [heq]; rfl) hlen
    · rw [heq] at hps
      obtain ⟨rfl, rfl, rfl, rfl⟩ : batch_size = B ∧ num_modes = M
          ∧ future_len = T ∧ num_coords = C := by simpa using hps
      rcases hviol with hv | hv | hv | hv | hv | hv | hv | hv
      exacts [absurd hc1 hv, absurd hc2 hv, absurd hc4 hv, absurd hc3 hv,
        absurd hc5 hv, absurd hc6 hv, absurd hc7 hv, absurd hc8 hv]
  · rfl

/-- Witness for C4: a rank-0 `pred` (empty shape) is rejected. -/
theorem C4_invalid_input_rejected_witness :
    (Tens.mk ([] : List ℕ) ([] : List FVal)).shape.length ≠ 4
      ∧ pytorch_neg_multi_log_likelihood_batch
          (Tens.mk [] []) (Tens.mk [] []) (Tens.mk [] []) (Tens.mk [] []) = none :=
  ⟨by decide, C4_invalid_input_rejected (Tens.mk [] []) (Tens.mk [] [])
      (Tens.mk [] []) (Tens.mk [] []) (Or.inl (by decide))⟩

/-- With uniform confidences 1/M and zero raw error, the per-sample loss
is exactly 0. -/
lemma nllSample_uniform_zero_err {M : ℕ} (hM : 0 < M) (conf err : Fin M → ℝ)
    (hc : ∀ m, conf m = 1 / (M : ℝ)) (he : ∀ m, err m = 0) :
    nllSample (fun m => logScore (conf m) (err m)) = 0 := by
  have hMR : (0 : ℝ) < M := by exact_mod_cast hM
  rw [nllSample_eq conf err (fun m => by rw [hc]; positivity)
      ⟨⟨0, hM⟩, by rw [hc]; positivity⟩]
  rw [Finset.sum_congr rfl (fun m _ => show conf m * Real.exp (-(0.5 * err m))
      = 1 / (M : ℝ) by rw [hc, he]; norm_num)]
  rw [Finset.sum_const, Finset.card_univ, Fintype.card_fin, nsmul_eq_mul,
    mul_one_div_cancel (ne_of_gt hMR), Real.log_one, neg_zero]

/-- With uniform confidences 1/M and zero raw error on every sample, the
batch loss is exactly 0. -/
lemma pnmllValue_uniform_zero_err (B M T C : ℕ) (hM : 0 < M)
    (gt : Fin B → Fin T → Fin C → ℝ)
    (pred : Fin B → Fin M → Fin T → Fin C → ℝ)
    (conf : Fin B → Fin M → ℝ) (avails : Fin B → Fin T → ℝ)
    (hc : ∀ b m, conf b m = 1 / (M : ℝ))
    (he : ∀ b m, rawError (gt b) (pred b m) (avails b) = 0) :
    pnmllValue B M T C gt pred conf avails = 0 := by
  unfold pnmllValue
  rw [Finset.sum_congr rfl (fun b _ =>
    nllSample_uniform_zero_err hM (conf b)
      (fun m => rawError (gt b) (pred b m) (avails b)) (hc b) (he b))]
  simp

/-- C3 counterexample: B = 1, T = 1, M = 2 modes with identical (zero)
predictions, uniform confidences (1/2, 1/2), full availability, and zero
ground truth.  The batch loss is 0 and the single-mode loss is 0, but the
claim predicts batch = single + log 2, and `0 ≠ 0 + log 2`. -/
theorem C3_counterexample :
    pytorch_neg_multi_log_likelihood_batch
        (Tens.mk [1, 1, 2] [FVal.fin 0, FVal.fin 0])
        (Tens.mk [1, 2, 1, 2] [FVal.fin 0, FVal.fin 0, FVal.fin 0, FVal.fin 0])
        (Tens.mk [1, 2] [FVal.fin (1 / 2), FVal.fin (1 / 2)])
        (Tens.mk [1, 1] [FVal.fin 1])
      = some 0
    ∧ pytorch_neg_multi_log_likelihood_single
        (Tens.mk [1, 1, 2] [FVal.fin 0, FVal.fin 0])
        (Tens.mk [1, 1, 2] [FVal.fin 0, FVal.fin 0])
        (Tens.mk [1, 1] [FVal.fin 1])
      = some 0
    ∧ (0 : ℝ) ≠ 0 + Real.log 2 := by
  refine ⟨?_, ?_, ?_⟩
  · unfold pytorch_neg_multi_log_likelihood_batch
    split
    · rename_i batch_size num_modes future_len num_coords heq
      obtain ⟨rfl, rfl, rfl, rfl⟩ : 1 = batch_size ∧ 2 = num_modes
          ∧ 1 = future_len ∧ 2 = num_coords := by simpa using heq
      rw [if_pos]
      · congr 1
        refine pnmllValue_uniform_zero_err 1 2 1 2 (by decide) _ _ _ _ ?_ ?_
        · intro b m
          fin_cases b <;> fin_cases m <;>
            norm_num [Tens.val, FVal.toQ]
        · intro b m
          unfold rawError
          rw [Fin.sum_univ_one]
          rw [Fin.sum_univ_two]
          fin_cases b <;> fin_cases m <;>
            norm_num [Tens.val, FVal.toQ]
      · refine ⟨rfl, rfl, ?_, rfl, by decide, by decide, by decide, by decide⟩
        norm_num [closeOne, sumFV, FVal.add, atol, rtol]
    · rename_i hne
      exact absurd rfl (hne 1 2 1 2)
  · unfold pytorch_neg_multi_log_likelihood_single
    split
    · rename_i batch_size future_len num_coords heq
      obtain ⟨rfl, -, -⟩ : 1 = batch_size ∧ 1 = future_len ∧ 2 = num_coords := by
        simpa using heq
      unfold pytorch_neg_multi_log_likelihood_batch
      split
      · rename_i batch_size num_modes future_len num_coords heq2
        obtain ⟨rfl, rfl, rfl, rfl⟩ : 1 = batch_size ∧ 1 = num_modes
            ∧ 1 = future_len ∧ 2 = num_coords := by simpa [Tens.unsqueeze1] using heq2
        rw [if_pos]
        · congr 1
          refine pnmllValue_uniform_zero_err 1 1 1 2 (by decide) _ _ _ _ ?_ ?_
          · intro b m
            fin_cases b <;> fin_cases m <;>
              norm_num [Tens.val, FVal.toQ, new_ones, List.replicate]
          · intro b m
            unfold rawError
            rw [Fin.sum_univ_one]
            rw [Fin.sum_univ_two]
            fin_cases b <;> fin_cases m <;>
              norm_num [Tens.val, FVal.toQ, Tens.unsqueeze1]
        · refine ⟨rfl, by decide, ?_, rfl, by decide, by decide, by decide, by decide⟩
          norm_num [closeOne, sumFV, FVal.add, atol, rtol, new_ones, List.replicate]
      · rename_i hne
        exact absurd (by simp [Tens.unsqueeze1]) (hne 1 1 1 2)
    · rename_i hne
      exact absurd rfl (hne 1 1 2)
  · rw [zero_add]
    exact ne_of_lt (Real.log_pos one_lt_two)

/-- Length of a concatenation of `n` chunks of equal length `k`. -/
lemma length_flatMap_range {α : Type*} (f : ℕ → List α) (k : ℕ) :
    ∀ n, (∀ i, i < n → (f i).length = k)
      → ((List.range n).flatMap f).length = n * k := by
  intro n
  induction n with
  | zero => intro _; simp
  | succ n ih =>
    intro hf
    rw [List.range_succ, List.flatMap_append,
      List.length_append, ih (fun i hi => hf i (Nat.lt_succ_of_lt hi))]
    simp [hf n (Nat.lt_succ_self n), Nat.succ_mul]

/-- Extracting the `b`-th chunk back out of a concatenation of `n` chunks
of equal length `k`. -/
lemma flatMap_range_chunk {α : Type*} (f : ℕ → List α) (k n : ℕ)
    (hf : ∀ i, i < n → (f i).length = k) :
    ∀ b, b < n → (((List.range n).flatMap f).drop (b * k)).take k = f b := by
  induction n with
  | zero => intro b hb; exact absurd hb (Nat.not_lt_zero b)
  | succ n ih =>
    intro b hb
    have hlen : ((List.range n).flatMap f).length = n * k :=
      length_flatMap_range f k n (fun i hi => hf i (Nat.lt_succ_of_lt hi))
    rw [List.range_succ, List.flatMap_append]
    have hfn : ([n].flatMap f) = f n := by simp
    rw [hfn]
    rcases Nat.lt_succ_iff_lt_or_eq.mp hb with hb1 | rfl
    · have hmul : b * k + k ≤ n * k := by
        rw [← Nat.succ_mul]
        exact Nat.mul_le_mul_right k hb1
      rw [List.drop_append_of_le_length
          (by rw [hlen]; exact le_trans (Nat.le_add_right _ _) hmul)]
      rw [List.take_append_of_le_length
          (by rw [List.length_drop, hlen]
              exact Nat.le_sub_of_add_le (by rw [Nat.add_comm]; exact hmul))]
      exact ih (fun i hi => hf i (Nat.lt_succ_of_lt hi)) b hb1
    · rw [show b * k = ((List.range b).flatMap f).length from hlen.symm,
        List.drop_left, ← hf b (Nat.lt_succ_self b), List.take_length]

/-- Every softmax output is non-negative. -/
lemma softmax_nonneg (l : List ℝ) : ∀ v ∈ softmax l, 0 ≤ v := by
  intro v hv
  unfold softmax at hv
  obtain ⟨y, -, rfl⟩ := List.mem_map.mp hv
  refine div_nonneg (Real.exp_nonneg y) (List.sum_nonneg (fun z hz => ?_))
  obtain ⟨w, -, rfl⟩ := List.mem_map.mp hz
  exact Real.exp_nonneg w

/-- The softmax of a nonempty list of logits sums to exactly 1. -/
lemma softmax_sum (l : List ℝ) (hl : l ≠ []) : (softmax l).sum = 1 := by
  have hpos : 0 < (l.map Real.exp).sum := by
    refine List.sum_pos _ (fun x hx => ?_) (by simpa using hl)
    obtain ⟨y, -, rfl⟩ := List.mem_map.mp hx
    exact Real.exp_pos y
  unfold softmax
  rw [show (fun v => Real.exp v / (l.map Real.exp).sum)
        = fun v => Real.exp v * ((l.map Real.exp).sum)⁻¹
      from funext (fun v => div_eq_mul_inv _ _)]
  rw [List.sum_map_mul_right]
  exact mul_inv_cancel₀ (ne_of_gt hpos)

/-- Each confidence-logit chunk of a `(bs, num_preds + num_modes)` input
has length `num_modes`, so each softmax chunk does too. -/
lemma conf_chunk_length (bs : ℕ) (x : RTens)
    (hlen : x.data.length = bs * (num_preds + num_modes)) :
    ∀ i, i < bs →
      (softmax (((x.data.drop (i * (num_preds + num_modes))).take
          (num_preds + num_modes)).drop num_preds)).length = num_modes := by
  intro i hi
  have h1 : ((x.data.drop (i * (num_preds + num_modes))).take
      (num_preds + num_modes)).length = num_preds + num_modes := by
    rw [List.length_take, List.length_drop, hlen]
    have hmul : i * (num_preds + num_modes) + (num_preds + num_modes)
        ≤ bs * (num_preds + num_modes) := by
      rw [← Nat.succ_mul]
      exact Nat.mul_le_mul_right _ hi
    exact min_eq_left (Nat.le_sub_of_add_le (by rw [Nat.add_comm]; exact hmul))
  unfold softmax
  rw [List.length_map, List.length_drop, h1, Nat.add_sub_cancel_left]

/-- C5: for any logits tensor of row length `num_preds + num_modes` and
batch size `bs`, the decoder returns `pred` of shape (bs, 3, 50, 2) and
`confidences` of shape (bs, 3) whose entries are all non-negative and
whose rows each sum to exactly 1 (a softmax categorical distribution). -/
theorem C5_decoder_output_contract (bs : ℕ) (x : RTens)
    (hlen : x.data.length = bs * (num_preds + num_modes)) :
    (LyftMultiModel_forward bs x).1.shape = [bs, 3, 50, 2]
    ∧ (LyftMultiModel_forward bs x).2.shape = [bs, 3]
    ∧ (∀ v ∈ (LyftMultiModel_forward bs x).2.data, 0 ≤ v)
    ∧ ∀ b, b < bs →
        ((((LyftMultiModel_forward bs x).2.data).drop (b * 3)).take 3).sum = 1 := by
  refine ⟨rfl, rfl, ?_, ?_⟩
  · intro v hv
    simp only [LyftMultiModel_forward] at hv
    obtain ⟨b, -, hvmem⟩ := List.mem_flatMap.mp hv
    exact softmax_nonneg _ v hvmem
  · intro b hb
    have hchunk : (((LyftMultiModel_forward bs x).2.data).drop (b * 3)).take 3
        = softmax (((x.data.drop (b * (num_preds + num_modes))).take
            (num_preds + num_modes)).drop num_preds) :=
      flatMap_range_chunk _ 3 bs (conf_chunk_length bs x hlen) b hb
    rw [hchunk]
    refine softmax_sum _ ?_
    have h3 : (softmax (((x.data.drop (b * (num_preds + num_modes))).take
        (num_preds + num_modes)).drop num_preds)).length = num_modes :=
      conf_chunk_length bs x hlen b hb
    intro hnil
    rw [show (((x.data.drop (b * (num_preds + num_modes))).take
          (num_preds + num_modes)).drop num_preds) = [] from hnil] at h3
    simp [softmax, num_modes] at h3

/-- Witness for C5: batch size 1, all-zero logits of length 303. -/
theorem C5_decoder_output_contract_witness :
    (List.replicate 303 (0 : ℝ)).length = 1 * (num_preds + num_modes)
    ∧ ((LyftMultiModel_forward 1 (RTens.mk [1, 303] (List.replicate 303 (0 : ℝ)))).1.shape
          = [1, 3, 50, 2]
        ∧ (LyftMultiModel_forward 1 (RTens.mk [1, 303] (List.replicate 303 (0 : ℝ)))).2.shape
          = [1, 3]
        ∧ (∀ v ∈ (LyftMultiModel_forward 1 (RTens.mk [1, 303] (List.replicate 303 (0 : ℝ)))).2.data,
            0 ≤ v)
        ∧ ∀ b, b < 1 →
            ((((LyftMultiModel_forward 1 (RTens.mk [1, 303]
                (List.replicate 303 (0 : ℝ)))).2.data).drop (b * 3)).take 3).sum = 1) :=
  ⟨by rw [List.length_replicate]; decide,
   C5_decoder_output_contract 1 (RTens.mk [1, 303] (List.replicate 303 (0 : ℝ)))
     (by rw [List.length_replicate]; decide)⟩

end Lyft
